import Mathlib

/-!
Verification of the IOCipher pipe-provisioning code
(src/jni/info_guardianproject_iocipher_Pipes.c) against its
natural-language specification.

The repository contains a single native function,
`Java_info_guardianproject_iocipher_Pipes_createfifonative`, which issues
eleven `mkfifo` system calls with hardcoded paths and mode bits and
discards every status.  The specification additionally describes a
generalized `provision` batch operation over lists of pipe requests; that
operation is specified but not implemented in the repository, so it is
modelled here from the words of the specification.

The filesystem is embedded as an association list from paths to nodes,
and `mkfifo` as a state transformer on it returning an optional errno.
-/

namespace IOCipher

/-- A filesystem node: a named pipe with its mode bits, a regular file
with contents and mode, or a directory. -/
inductive Node where
  | fifo (mode : Nat)
  | regular (contents : List Nat) (mode : Nat)
  | directory
deriving DecidableEq, Repr

/-- The filesystem state: a finite association of absolute paths to
nodes.  Earlier entries shadow later ones. -/
structure FS where
  entries : List (String × Node)
deriving DecidableEq, Repr

/-- Look up the node stored at a path, if any. -/
def FS.lookup (fs : FS) (p : String) : Option Node :=
  (fs.entries.find? (fun e => e.1 = p)).map (fun e => e.2)

/-- Record a node at a path by prepending it to the association list. -/
def FS.insert (fs : FS) (p : String) (n : Node) : FS :=
  ⟨(p, n) :: fs.entries⟩

/-- The containing directory of a path: drop the final path component
and the slash before it. -/
def parentDir (p : String) : String :=
  String.mk (((p.data.reverse.dropWhile (fun c => c ≠ '/')).drop 1).reverse)

/-- The POSIX error codes relevant to mkfifo: target exists, a component
of the parent is missing, access denied, and a catch-all for every other
filesystem failure. -/
inductive Errno where
  | EEXIST
  | ENOENT
  | EACCES
  | EOTHER
deriving DecidableEq, Repr

/-- The environment surrounding a call: the process umask, which
directories the caller may create nodes in, and which paths fault with a
miscellaneous filesystem failure. -/
structure Env where
  umask : Nat
  writable : String → Bool
  ioFault : String → Bool

/-- The mode bits actually stored for a created node: the requested mode
restricted to the permission bits and filtered by the process umask. -/
def applyUmask (mode umask : Nat) : Nat :=
  mode &&& 0o7777 &&& (0o7777 ^^^ (umask &&& 0o7777))

/-- Model of the POSIX mkfifo system call: fails with EEXIST when the
path is occupied, ENOENT when the parent directory is missing, EOTHER
when the parent is not a directory or the path faults, EACCES when the
parent is not writable; otherwise records a fifo node with the
umask-filtered mode and succeeds. -/
def mkfifo (env : Env) (fs : FS) (path : String) (mode : Nat) :
    FS × Option Errno :=
  match fs.lookup path with
  | some _ => (fs, some .EEXIST)
  | none =>
    match fs.lookup (parentDir path) with
    | some .directory =>
      if env.writable (parentDir path) then
        if env.ioFault path then (fs, some .EOTHER)
        else (fs.insert path (.fifo (applyUmask mode env.umask)), none)
      else (fs, some .EACCES)
    | some _ => (fs, some .EOTHER)
    | none => (fs, some .ENOENT)

/-- S_IRUSR permission bit. -/
def S_IRUSR : Nat := 0o400
/-- S_IWUSR permission bit. -/
def S_IWUSR : Nat := 0o200
/-- S_IRGRP permission bit. -/
def S_IRGRP : Nat := 0o040
/-- S_IWGRP permission bit. -/
def S_IWGRP : Nat := 0o020
/-- S_IROTH permission bit. -/
def S_IROTH : Nat := 0o004
/-- S_IWOTH permission bit. -/
def S_IWOTH : Nat := 0o002

/-- The mode mask passed to every mkfifo call in the source:
read and write for owner, group and other. -/
def fifoMode : Nat :=
  S_IWUSR ||| S_IRUSR ||| S_IRGRP ||| S_IWGRP ||| S_IROTH ||| S_IWOTH

/-- One issued creation call: the path and mode arguments passed, and
the status the filesystem returned (`none` is success). -/
structure Call where
  path : String
  mode : Nat
  status : Option Errno
deriving DecidableEq, Repr

/-- Embedding of `Java_info_guardianproject_iocipher_Pipes_createfifonative`
from src/jni/info_guardianproject_iocipher_Pipes.c: eleven sequential
mkfifo calls with hardcoded paths and the mode
S_IWUSR|S_IRUSR|S_IRGRP|S_IWGRP|S_IROTH|S_IWOTH.  The C function returns
void and overwrites the local `status` variable at each call without
inspecting it; the list of `Call` records instruments the sequence of
system calls and their statuses, which the C code itself discards. -/
def createfifonative (env : Env) (fs : FS) : FS × List Call :=
  let r0 := mkfifo env fs "/storage/emulated/legacy/DCIM/foo.jpg" fifoMode
  let r1 := mkfifo env r0.1 "/data/data/info.guardianproject.securecamtest/pipe0" fifoMode
  let r2 := mkfifo env r1.1 "/data/data/info.guardianproject.securecamtest/pipe1" fifoMode
  let r3 := mkfifo env r2.1 "/data/data/info.guardianproject.securecamtest/pipe2" fifoMode
  let r4 := mkfifo env r3.1 "/data/data/info.guardianproject.securecamtest/pipe3" fifoMode
  let r5 := mkfifo env r4.1 "/data/data/info.guardianproject.securecamtest/pipe4" fifoMode
  let r6 := mkfifo env r5.1 "/data/data/info.guardianproject.securecamtest/pipe5" fifoMode
  let r7 := mkfifo env r6.1 "/data/data/info.guardianproject.securecamtest/pipe6" fifoMode
  let r8 := mkfifo env r7.1 "/data/data/info.guardianproject.securecamtest/pipe7" fifoMode
  let r9 := mkfifo env r8.1 "/data/data/info.guardianproject.securecamtest/pipe8" fifoMode
  let r10 := mkfifo env r9.1 "/data/data/info.guardianproject.securecamtest/pipe9" fifoMode
  (r10.1,
    [⟨"/storage/emulated/legacy/DCIM/foo.jpg", fifoMode, r0.2⟩,
     ⟨"/data/data/info.guardianproject.securecamtest/pipe0", fifoMode, r1.2⟩,
     ⟨"/data/data/info.guardianproject.securecamtest/pipe1", fifoMode, r2.2⟩,
     ⟨"/data/data/info.guardianproject.securecamtest/pipe2", fifoMode, r3.2⟩,
     ⟨"/data/data/info.guardianproject.securecamtest/pipe3", fifoMode, r4.2⟩,
     ⟨"/data/data/info.guardianproject.securecamtest/pipe4", fifoMode, r5.2⟩,
     ⟨"/data/data/info.guardianproject.securecamtest/pipe5", fifoMode, r6.2⟩,
     ⟨"/data/data/info.guardianproject.securecamtest/pipe6", fifoMode, r7.2⟩,
     ⟨"/data/data/info.guardianproject.securecamtest/pipe7", fifoMode, r8.2⟩,
     ⟨"/data/data/info.guardianproject.securecamtest/pipe8", fifoMode, r9.2⟩,
     ⟨"/data/data/info.guardianproject.securecamtest/pipe9", fifoMode, r10.2⟩])

/-- Modelled from the spec: the error taxonomy of section 7 for the
`Failed(reason)` outcome; the generalized provisioner is specified but
not implemented in the repository. -/
inductive FailReason where
  | pathAlreadyExistsIncompatible
  | parentDirectoryMissing
  | permissionDenied
  | ioError
deriving DecidableEq, Repr

/-- Modelled from the spec: the outcome of one provisioning request,
one of Created, AlreadyExists or Failed(reason). -/
inductive Outcome where
  | created
  | alreadyExists
  | failed (reason : FailReason)
deriving DecidableEq, Repr

/-- Modelled from the spec: a PipeRequest, a path together with a
POSIX-style permission mask. -/
structure PipeRequest where
  path : String
  permissions : Nat
deriving DecidableEq, Repr

/-- Modelled from the spec: a ProvisionResult, echoing the request path
together with the outcome. -/
structure ProvisionResult where
  path : String
  outcome : Outcome
deriving DecidableEq, Repr

/-- Modelled from the spec: classification of a failed creation call
into the section 7 taxonomy.  EEXIST against a pipe-compatible node is
AlreadyExists, EEXIST against any other node is
PathAlreadyExistsIncompatible, ENOENT is ParentDirectoryMissing, EACCES
is PermissionDenied, and every other filesystem failure is IOError. -/
def classify (fs : FS) (path : String) : Errno → Outcome
  | .EEXIST =>
    match fs.lookup path with
    | some (.fifo _) => .alreadyExists
    | _ => .failed .pathAlreadyExistsIncompatible
  | .ENOENT => .failed .parentDirectoryMissing
  | .EACCES => .failed .permissionDenied
  | .EOTHER => .failed .ioError

/-- Modelled from the spec: the outcome of one creation call from its
status, Created on success and a classified outcome on failure. -/
def outcomeOf (fs : FS) (path : String) : Option Errno → Outcome
  | none => .created
  | some e => classify fs path e

/-- Modelled from the spec: process a single request, attempting the
creation call and recording its classified outcome. -/
def provisionOne (env : Env) (fs : FS) (req : PipeRequest) :
    FS × ProvisionResult :=
  let m := mkfifo env fs req.path req.permissions
  (m.1, ⟨req.path, outcomeOf fs req.path m.2⟩)

/-- The complete observable effect of a batch run: the final filesystem,
the aggregate result list, and the trace of issued creation calls. -/
structure ProvisionRun where
  fs : FS
  results : List ProvisionResult
  calls : List Call
deriving DecidableEq, Repr

/-- Modelled from the spec: the `provision` batch operation of section
4.1, processing the requests in input order, attempting every creation
call unconditionally and collecting one result per request. -/
def provision (env : Env) (fs : FS) : List PipeRequest → ProvisionRun
  | [] => ⟨fs, [], []⟩
  | r :: rs =>
    let m := mkfifo env fs r.path r.permissions
    let rest := provision env m.1 rs
    ⟨rest.fs, ⟨r.path, outcomeOf fs r.path m.2⟩ :: rest.results,
      ⟨r.path, r.permissions, m.2⟩ :: rest.calls⟩

/-- The state of a synchronous batch run: the requests still pending,
the filesystem, and the results accumulated so far. -/
structure Machine where
  pending : List PipeRequest
  fs : FS
  results : List ProvisionResult
deriving DecidableEq, Repr

/-- One synchronous step of the batch run: process the first pending
request; a state with no pending requests is terminal. -/
def step (env : Env) (m : Machine) : Machine :=
  match m.pending with
  | [] => m
  | r :: rs =>
    let one := provisionOne env m.fs r
    ⟨rs, one.1, m.results ++ [one.2]⟩

/-- A concrete benign environment: no umask, everything writable, no
faults. -/
def envW : Env := ⟨0, fun _ => true, fun _ => false⟩

/-- A concrete environment that refuses write access everywhere. -/
def envDenyW : Env := ⟨0, fun _ => false, fun _ => false⟩

/-- A concrete environment in which every path faults. -/
def envFaultW : Env := ⟨0, fun _ => true, fun _ => true⟩

/-- A concrete filesystem holding one empty directory. -/
def fsW : FS := ⟨[("/tmp/test", .directory)]⟩

/-- A concrete request for a fresh pipe inside that directory. -/
def reqW : PipeRequest := ⟨"/tmp/test/pipeA", 438⟩

/-- A concrete filesystem holding a regular file and its directory. -/
def fsFileW : FS := ⟨[("/tmp/f", Node.regular [7] 420), ("/tmp", .directory)]⟩

/-- A concrete request targeting the path of that regular file. -/
def reqFileW : PipeRequest := ⟨"/tmp/f", 438⟩

/-- The mode mask of the source evaluates to octal 666. -/
theorem fifoMode_eq : fifoMode = 438 := by decide

/-- The argument trace of the entry point is a fixed literal list. -/
theorem createfifonative_calls_eq (env : Env) (fs : FS) :
    (createfifonative env fs).2.map (fun c => (c.path, c.mode)) =
      [("/storage/emulated/legacy/DCIM/foo.jpg", 438),
       ("/data/data/info.guardianproject.securecamtest/pipe0", 438),
       ("/data/data/info.guardianproject.securecamtest/pipe1", 438),
       ("/data/data/info.guardianproject.securecamtest/pipe2", 438),
       ("/data/data/info.guardianproject.securecamtest/pipe3", 438),
       ("/data/data/info.guardianproject.securecamtest/pipe4", 438),
       ("/data/data/info.guardianproject.securecamtest/pipe5", 438),
       ("/data/data/info.guardianproject.securecamtest/pipe6", 438),
       ("/data/data/info.guardianproject.securecamtest/pipe7", 438),
       ("/data/data/info.guardianproject.securecamtest/pipe8", 438),
       ("/data/data/info.guardianproject.securecamtest/pipe9", 438)] := by
  simp [createfifonative, fifoMode_eq]

/-- C9: on every invocation the entry point issues exactly eleven
pipe-creation attempts with fixed literal arguments, in this fixed
order: first "/storage/emulated/legacy/DCIM/foo.jpg", then pipe0 through
pipe9 in ascending numeric order, each with the identical permission
mask 438 = 0o666, read and write for owner, group and other, with no
execute bits. -/
theorem createfifonative_fixed_call_sequence (env : Env) (fs : FS) :
    (createfifonative env fs).2.map (fun c => (c.path, c.mode)) =
      [("/storage/emulated/legacy/DCIM/foo.jpg", 438),
       ("/data/data/info.guardianproject.securecamtest/pipe0", 438),
       ("/data/data/info.guardianproject.securecamtest/pipe1", 438),
       ("/data/data/info.guardianproject.securecamtest/pipe2", 438),
       ("/data/data/info.guardianproject.securecamtest/pipe3", 438),
       ("/data/data/info.guardianproject.securecamtest/pipe4", 438),
       ("/data/data/info.guardianproject.securecamtest/pipe5", 438),
       ("/data/data/info.guardianproject.securecamtest/pipe6", 438),
       ("/data/data/info.guardianproject.securecamtest/pipe7", 438),
       ("/data/data/info.guardianproject.securecamtest/pipe8", 438),
       ("/data/data/info.guardianproject.securecamtest/pipe9", 438)] :=
  createfifonative_calls_eq env fs

/-- C10: the sequence of creation calls the entry point issues, with
their arguments, is independent of the filesystem state and of every
response the environment gives; whatever combination of successes and
failures the eleven calls return, the same calls are issued and the
total function returns normally with no branch on any status. -/
theorem createfifonative_calls_independent_of_responses
    (env₁ : Env) (fs₁ : FS) (env₂ : Env) (fs₂ : FS) :
    (createfifonative env₁ fs₁).2.map (fun c => (c.path, c.mode)) =
      (createfifonative env₂ fs₂).2.map (fun c => (c.path, c.mode)) :=
  (createfifonative_calls_eq env₁ fs₁).trans
    (createfifonative_calls_eq env₂ fs₂).symm

/-- Looking up the freshly inserted path finds the new node. -/
theorem FS.lookup_insert_self (fs : FS) (p : String) (n : Node) :
    (fs.insert p n).lookup p = some n := by
  simp [FS.lookup, FS.insert, List.find?]

/-- Looking up a different path is unaffected by an insertion. -/
theorem FS.lookup_insert_ne (fs : FS) (p q : String) (n : Node)
    (h : q ≠ p) : (fs.insert p n).lookup q = fs.lookup q := by
  simp [FS.lookup, FS.insert, List.find?, Ne.symm h]

/-- C1: every processed request yields exactly one result, and the
result list has the same length as the input and the same order of path
values as the input sequence. -/
theorem provision_length_and_path_order (env : Env) (fs : FS)
    (reqs : List PipeRequest) :
    (provision env fs reqs).results.length = reqs.length ∧
    (provision env fs reqs).results.map (fun r => r.path) =
      reqs.map (fun r => r.path) := by
  induction reqs generalizing fs with
  | nil => simp [provision]
  | cons r rs ih => simp [provision, ih]

/-- C2: the creation attempt for every request in the batch is issued
with the arguments of that request, in input order, whatever the outcomes of
the earlier attempts are: the call trace is the full argument list for
every environment, including environments that fail any combination of
requests, so no failure aborts the batch. -/
theorem provision_attempts_every_request (env : Env) (fs : FS)
    (reqs : List PipeRequest) :
    (provision env fs reqs).calls.map (fun c => (c.path, c.mode)) =
      reqs.map (fun r => (r.path, r.permissions)) := by
  induction reqs generalizing fs with
  | nil => simp [provision]
  | cons r rs ih => simp [provision, ih]

/-- A classified failure is never the Created outcome. -/
theorem classify_ne_created (fs : FS) (p : String) (e : Errno) :
    classify fs p e ≠ Outcome.created := by
  cases e with
  | EEXIST =>
    cases h : fs.lookup p with
    | none => simp [classify, h]
    | some n => cases n <;> simp [classify, h]
  | ENOENT => simp [classify]
  | EACCES => simp [classify]
  | EOTHER => simp [classify]

/-- C4: no creation call status is silently dropped: the results and
the call trace correspond pointwise, each result echoes its call path,
and its outcome is Created exactly when the status of that call was success,
so the caller observes the status of every per-request creation call in
the aggregate result. -/
theorem provision_surfaces_every_status (env : Env) (fs : FS)
    (reqs : List PipeRequest) :
    List.Forall₂
      (fun (res : ProvisionResult) (c : Call) =>
        res.path = c.path ∧ (res.outcome = Outcome.created ↔ c.status = none))
      (provision env fs reqs).results (provision env fs reqs).calls := by
  induction reqs generalizing fs with
  | nil => simp [provision]
  | cons r rs ih =>
    refine List.Forall₂.cons ⟨rfl, ?_⟩ (ih _)
    cases h : (mkfifo env fs r.path r.permissions).2 with
    | none => simp [outcomeOf]
    | some e => simp [outcomeOf, classify_ne_created]

/-- A creation call on a fresh path with an existing writable parent
directory and no fault succeeds and records the fifo node. -/
theorem mkfifo_success (env : Env) (fs : FS) (p : String) (mo : Nat)
    (hfresh : fs.lookup p = none)
    (hparent : fs.lookup (parentDir p) = some Node.directory)
    (hwrite : env.writable (parentDir p) = true)
    (hfault : env.ioFault p = false) :
    mkfifo env fs p mo =
      (fs.insert p (Node.fifo (applyUmask mo env.umask)), none) := by
  simp [mkfifo, hfresh, hparent, hwrite, hfault]

/-- C3: provisioning is idempotent: a single valid request on a fresh
path yields Created, and provisioning the same request again on the
resulting filesystem yields AlreadyExists, because the path now holds a
pipe-compatible node; no error is reported. -/
theorem provision_idempotent (env : Env) (fs : FS) (req : PipeRequest)
    (hfresh : fs.lookup req.path = none)
    (hparent : fs.lookup (parentDir req.path) = some Node.directory)
    (hwrite : env.writable (parentDir req.path) = true)
    (hfault : env.ioFault req.path = false) :
    (provision env fs [req]).results = [⟨req.path, Outcome.created⟩] ∧
    (provision env (provision env fs [req]).fs [req]).results =
      [⟨req.path, Outcome.alreadyExists⟩] := by
  have hmk := mkfifo_success env fs req.path req.permissions
    hfresh hparent hwrite hfault
  have hlook := FS.lookup_insert_self fs req.path
    (Node.fifo (applyUmask req.permissions env.umask))
  have hfs1 : (provision env fs [req]).fs =
      fs.insert req.path (Node.fifo (applyUmask req.permissions env.umask)) := by
    simp [provision, hmk]
  have hmk2 : mkfifo env
      (fs.insert req.path (Node.fifo (applyUmask req.permissions env.umask)))
      req.path req.permissions =
      (fs.insert req.path (Node.fifo (applyUmask req.permissions env.umask)),
        some Errno.EEXIST) := by
    simp [mkfifo, hlook]
  constructor
  · simp [provision, hmk, outcomeOf]
  · rw [hfs1]
    simp [provision, hmk2, outcomeOf, classify, hlook]

/-- C3 witness: a concrete fresh request under a benign environment is
Created on the first call and AlreadyExists on the second. -/
theorem provision_idempotent_witness :
    (provision envW fsW [reqW]).results =
      [⟨"/tmp/test/pipeA", Outcome.created⟩] ∧
    (provision envW (provision envW fsW [reqW]).fs [reqW]).results =
      [⟨"/tmp/test/pipeA", Outcome.alreadyExists⟩] :=
  provision_idempotent envW fsW reqW (by decide) (by decide) rfl rfl

/-- C7: when the environment applies no umask and the requested mask is
within the permission bits, a Created request stores a pipe node whose
mode bits equal the requested permissions exactly. -/
theorem provision_permission_roundtrip (env : Env) (fs : FS)
    (req : PipeRequest)
    (humask : env.umask = 0)
    (hperm : req.permissions &&& 0o7777 = req.permissions)
    (hfresh : fs.lookup req.path = none)
    (hparent : fs.lookup (parentDir req.path) = some Node.directory)
    (hwrite : env.writable (parentDir req.path) = true)
    (hfault : env.ioFault req.path = false) :
    (provision env fs [req]).results = [⟨req.path, Outcome.created⟩] ∧
    (provision env fs [req]).fs.lookup req.path =
      some (Node.fifo req.permissions) := by
  have hmode : applyUmask req.permissions env.umask = req.permissions := by
    simp [applyUmask, humask, Nat.zero_and, Nat.xor_zero, hperm]
  have hmk := mkfifo_success env fs req.path req.permissions
    hfresh hparent hwrite hfault
  constructor
  · simp [provision, hmk, outcomeOf]
  · simp [provision, hmk, hmode, FS.lookup_insert_self]

/-- C7 witness: the concrete request with mask 438 = 0o666 under a
zero-umask environment stores a pipe with exactly mode 438. -/
theorem provision_permission_roundtrip_witness :
    (provision envW fsW [reqW]).results =
      [⟨"/tmp/test/pipeA", Outcome.created⟩] ∧
    (provision envW fsW [reqW]).fs.lookup "/tmp/test/pipeA" =
      some (Node.fifo 438) :=
  provision_permission_roundtrip envW fsW reqW rfl (by decide) (by decide)
    (by decide) rfl rfl

/-- A creation call against an occupied path fails with EEXIST and
leaves the filesystem unchanged. -/
theorem mkfifo_exist (env : Env) (fs : FS) (path : String) (mo : Nat)
    (v : Node) (h : fs.lookup path = some v) :
    mkfifo env fs path mo = (fs, some Errno.EEXIST) := by
  simp [mkfifo, h]

/-- A creation call with a missing parent directory fails with ENOENT
and leaves the filesystem unchanged. -/
theorem mkfifo_noparent (env : Env) (fs : FS) (path : String) (mo : Nat)
    (h1 : fs.lookup path = none)
    (h2 : fs.lookup (parentDir path) = none) :
    mkfifo env fs path mo = (fs, some Errno.ENOENT) := by
  simp [mkfifo, h1, h2]

/-- A creation call whose parent is present but not a directory fails
with the catch-all errno and leaves the filesystem unchanged. -/
theorem mkfifo_badparent (env : Env) (fs : FS) (path : String) (mo : Nat)
    (nd : Node) (h1 : fs.lookup path = none)
    (h2 : fs.lookup (parentDir path) = some nd)
    (h3 : nd ≠ Node.directory) :
    mkfifo env fs path mo = (fs, some Errno.EOTHER) := by
  cases nd with
  | directory => exact absurd rfl h3
  | fifo m => simp [mkfifo, h1, h2]
  | regular c m => simp [mkfifo, h1, h2]

/-- A creation call into a non-writable directory fails with EACCES and
leaves the filesystem unchanged. -/
theorem mkfifo_denied (env : Env) (fs : FS) (path : String) (mo : Nat)
    (h1 : fs.lookup path = none)
    (h2 : fs.lookup (parentDir path) = some Node.directory)
    (hw : env.writable (parentDir path) = false) :
    mkfifo env fs path mo = (fs, some Errno.EACCES) := by
  simp [mkfifo, h1, h2, hw]

/-- A creation call at a faulting path fails with the catch-all errno
and leaves the filesystem unchanged. -/
theorem mkfifo_fault (env : Env) (fs : FS) (path : String) (mo : Nat)
    (h1 : fs.lookup path = none)
    (h2 : fs.lookup (parentDir path) = some Node.directory)
    (hw : env.writable (parentDir path) = true)
    (hf : env.ioFault path = true) :
    mkfifo env fs path mo = (fs, some Errno.EOTHER) := by
  simp [mkfifo, h1, h2, hw, hf]

/-- A creation call never changes an existing node: any node already
present at any path is still there, unchanged, afterwards. -/
theorem mkfifo_preserves (env : Env) (fs : FS) (q : String) (mo : Nat)
    (p : String) (n : Node) (h : fs.lookup p = some n) :
    (mkfifo env fs q mo).1.lookup p = some n := by
  cases hq : fs.lookup q with
  | some v => rw [mkfifo_exist env fs q mo v hq]; exact h
  | none =>
    cases hp : fs.lookup (parentDir q) with
    | none => rw [mkfifo_noparent env fs q mo hq hp]; exact h
    | some nd =>
      cases nd with
      | fifo m =>
        rw [mkfifo_badparent env fs q mo _ hq hp
          (fun he => Node.noConfusion he)]
        exact h
      | regular c m =>
        rw [mkfifo_badparent env fs q mo _ hq hp
          (fun he => Node.noConfusion he)]
        exact h
      | directory =>
        cases hw : env.writable (parentDir q) with
        | false => rw [mkfifo_denied env fs q mo hq hp hw]; exact h
        | true =>
          cases hf : env.ioFault q with
          | true => rw [mkfifo_fault env fs q mo hq hp hw hf]; exact h
          | false =>
            rw [mkfifo_success env fs q mo hq hp hw hf]
            have hpq : p ≠ q := by
              intro he
              rw [he, hq] at h
              exact Option.noConfusion h
            rw [FS.lookup_insert_ne fs q p _ hpq]
            exact h

/-- When a creation call changes what a lookup at a path returns, that
path is the target of the call itself, which was free, the call succeeded, and
the path now holds a fifo node with the umask-filtered requested mode. -/
theorem mkfifo_change (env : Env) (fs : FS) (q : String) (mo : Nat)
    (p : String) (h : (mkfifo env fs q mo).1.lookup p ≠ fs.lookup p) :
    p = q ∧ fs.lookup p = none ∧ (mkfifo env fs q mo).2 = none ∧
      (mkfifo env fs q mo).1.lookup p =
        some (Node.fifo (applyUmask mo env.umask)) := by
  cases hq : fs.lookup q with
  | some v => rw [mkfifo_exist env fs q mo v hq] at h; exact absurd rfl h
  | none =>
    cases hp : fs.lookup (parentDir q) with
    | none =>
      rw [mkfifo_noparent env fs q mo hq hp] at h
      exact absurd rfl h
    | some nd =>
      cases nd with
      | fifo m =>
        rw [mkfifo_badparent env fs q mo _ hq hp
          (fun he => Node.noConfusion he)] at h
        exact absurd rfl h
      | regular c m =>
        rw [mkfifo_badparent env fs q mo _ hq hp
          (fun he => Node.noConfusion he)] at h
        exact absurd rfl h
      | directory =>
        cases hw : env.writable (parentDir q) with
        | false =>
          rw [mkfifo_denied env fs q mo hq hp hw] at h
          exact absurd rfl h
        | true =>
          cases hf : env.ioFault q with
          | true =>
            rw [mkfifo_fault env fs q mo hq hp hw hf] at h
            exact absurd rfl h
          | false =>
            rw [mkfifo_success env fs q mo hq hp hw hf] at h ⊢
            by_cases hpq : p = q
            · subst hpq
              exact ⟨rfl, hq, rfl, FS.lookup_insert_self fs p _⟩
            · rw [FS.lookup_insert_ne fs q p _ hpq] at h
              exact absurd rfl h

/-- A batch run never changes an existing node at any path. -/
theorem provision_fs_preserves (env : Env) (reqs : List PipeRequest) :
    ∀ (fs : FS) (p : String) (n : Node), fs.lookup p = some n →
      (provision env fs reqs).fs.lookup p = some n := by
  induction reqs with
  | nil => intro fs p n h; simpa [provision] using h
  | cons r rs ih =>
    intro fs p n h
    simp only [provision]
    exact ih _ p n (mkfifo_preserves env fs r.path r.permissions p n h)

/-- When a batch run changes what a lookup at a path returns, the path
was free beforehand, it now holds a fifo node, and the result list
records a Created outcome for that path. -/
theorem provision_fs_change (env : Env) (reqs : List PipeRequest) :
    ∀ (fs : FS) (p : String),
      (provision env fs reqs).fs.lookup p ≠ fs.lookup p →
      fs.lookup p = none ∧
      (∃ mo, (provision env fs reqs).fs.lookup p = some (Node.fifo mo)) ∧
      (⟨p, Outcome.created⟩ : ProvisionResult) ∈
        (provision env fs reqs).results := by
  induction reqs with
  | nil => intro fs p h; simp [provision] at h
  | cons r rs ih =>
    intro fs p h
    simp only [provision] at h ⊢
    by_cases h1 : (mkfifo env fs r.path r.permissions).1.lookup p =
        fs.lookup p
    · have h2 : (provision env (mkfifo env fs r.path r.permissions).1
          rs).fs.lookup p ≠
          (mkfifo env fs r.path r.permissions).1.lookup p := by
        rw [h1]; exact h
      obtain ⟨hnone, hfifo, hmem⟩ := ih _ p h2
      refine ⟨by rw [← h1]; exact hnone, hfifo, ?_⟩
      exact List.mem_cons_of_mem _ hmem
    · obtain ⟨hpq, hnone, hst, hins⟩ :=
        mkfifo_change env fs r.path r.permissions p h1
      refine ⟨hnone, ⟨applyUmask r.permissions env.umask,
        provision_fs_preserves env rs _ p _ hins⟩, ?_⟩
      have hhead : (⟨r.path, outcomeOf fs r.path
          (mkfifo env fs r.path r.permissions).2⟩ : ProvisionResult) =
          ⟨p, Outcome.created⟩ := by
        rw [hst, hpq]; rfl
      exact hhead ▸ List.mem_cons_self _ _

/-- C5: the only state a batch run mutates is the filesystem, and only
by creating pipe nodes at paths whose result is Created: every node
already present at any path, in particular a regular file with its
contents and mode, is preserved unchanged, and any path whose lookup
changes was previously free, now holds a fifo node, and has a Created
result recorded for it. -/
theorem provision_frame (env : Env) (fs : FS) (reqs : List PipeRequest)
    (p : String) :
    (∀ n, fs.lookup p = some n →
      (provision env fs reqs).fs.lookup p = some n) ∧
    ((provision env fs reqs).fs.lookup p ≠ fs.lookup p →
      fs.lookup p = none ∧
      (∃ mo, (provision env fs reqs).fs.lookup p = some (Node.fifo mo)) ∧
      (⟨p, Outcome.created⟩ : ProvisionResult) ∈
        (provision env fs reqs).results) :=
  ⟨fun n h => provision_fs_preserves env reqs fs p n h,
   fun h => provision_fs_change env reqs fs p h⟩

/-- C5 witness: a request targeting a path already holding a regular
file leaves that file with its contents and mode untouched. -/
theorem provision_frame_witness :
    (provision envW fsFileW [reqFileW]).fs.lookup "/tmp/f" =
      some (Node.regular [7] 420) :=
  (provision_frame envW fsFileW [reqFileW] "/tmp/f").1
    (Node.regular [7] 420) (by decide)

/-- C6: a failed request reports Failed(reason) with the reason
classifying the underlying cause: PathAlreadyExistsIncompatible when a
non-pipe node occupies the path, ParentDirectoryMissing when the
containing directory does not exist, PermissionDenied when the
filesystem rejects creation for access rights, and IOError for any
other filesystem-reported failure, such as a faulting path. -/
theorem provision_failure_classification (env : Env) (fs : FS)
    (req : PipeRequest) :
    (∀ n, fs.lookup req.path = some n → (∀ mo, n ≠ Node.fifo mo) →
      (provision env fs [req]).results =
        [⟨req.path, Outcome.failed FailReason.pathAlreadyExistsIncompatible⟩]) ∧
    (fs.lookup req.path = none → fs.lookup (parentDir req.path) = none →
      (provision env fs [req]).results =
        [⟨req.path, Outcome.failed FailReason.parentDirectoryMissing⟩]) ∧
    (fs.lookup req.path = none →
      fs.lookup (parentDir req.path) = some Node.directory →
      env.writable (parentDir req.path) = false →
      (provision env fs [req]).results =
        [⟨req.path, Outcome.failed FailReason.permissionDenied⟩]) ∧
    (fs.lookup req.path = none →
      fs.lookup (parentDir req.path) = some Node.directory →
      env.writable (parentDir req.path) = true →
      env.ioFault req.path = true →
      (provision env fs [req]).results =
        [⟨req.path, Outcome.failed FailReason.ioError⟩]) := by
  refine ⟨?_, ?_, ?_, ?_⟩
  · intro n h hn
    have hmk := mkfifo_exist env fs req.path req.permissions n h
    cases n with
    | fifo m => exact absurd rfl (hn m)
    | regular c m => simp [provision, hmk, outcomeOf, classify, h]
    | directory => simp [provision, hmk, outcomeOf, classify, h]
  · intro h1 h2
    have hmk := mkfifo_noparent env fs req.path req.permissions h1 h2
    simp [provision, hmk, outcomeOf, classify]
  · intro h1 h2 hw
    have hmk := mkfifo_denied env fs req.path req.permissions h1 h2 hw
    simp [provision, hmk, outcomeOf, classify]
  · intro h1 h2 hw hf
    have hmk := mkfifo_fault env fs req.path req.permissions h1 h2 hw hf
    simp [provision, hmk, outcomeOf, classify]

/-- C6 witness: a request at a path occupied by a regular file reports
Failed(PathAlreadyExistsIncompatible). -/
theorem provision_failure_classification_witness :
    (provision envW fsFileW [reqFileW]).results =
      [⟨"/tmp/f", Outcome.failed FailReason.pathAlreadyExistsIncompatible⟩] :=
  (provision_failure_classification envW fsFileW reqFileW).1
    (Node.regular [7] 420) (by decide) (fun mo he => Node.noConfusion he)

/-- Iterating the step function for the length of the batch empties the
pending list and accumulates exactly the provision results. -/
theorem step_run (env : Env) (reqs : List PipeRequest) :
    ∀ (fs : FS) (acc : List ProvisionResult),
      (step env)^[reqs.length] ⟨reqs, fs, acc⟩ =
        ⟨[], (provision env fs reqs).fs,
          acc ++ (provision env fs reqs).results⟩ := by
  induction reqs with
  | nil => intro fs acc; simp [provision]
  | cons r rs ih =>
    intro fs acc
    rw [List.length_cons, Function.iterate_succ_apply]
    have hstep : step env ⟨r :: rs, fs, acc⟩ =
        ⟨rs, (provisionOne env fs r).1, acc ++ [(provisionOne env fs r).2]⟩ :=
      rfl
    rw [hstep, ih]
    simp [provision, provisionOne]

/-- C8: the batch executes synchronously and terminates: starting from
the full batch, exactly one step per request reaches the terminal state
with no pending requests, whose filesystem and accumulated results are
those of provision, and that state is a fixed point of the step
function: control has returned after the last request. -/
theorem provision_terminates (env : Env) (fs : FS)
    (reqs : List PipeRequest) :
    (step env)^[reqs.length] ⟨reqs, fs, []⟩ =
      ⟨[], (provision env fs reqs).fs, (provision env fs reqs).results⟩ ∧
    step env ((step env)^[reqs.length] ⟨reqs, fs, []⟩) =
      (step env)^[reqs.length] ⟨reqs, fs, []⟩ := by
  have h := step_run env reqs fs []
  simp only [List.nil_append] at h
  exact ⟨h, by rw [h]; rfl⟩

end IOCipher
